import Mathlib

/-!
# Verification of `gdt/automatch/matchmaker/isotropic.py`

Shallow embedding of the `IsotropicMatchmaker` class and proofs about it.

The matchmaker's collaborator classes (`Player`, `Seek`, `Requirement`,
`NumPlayers`, `RatingSystem`, `VPCounter`, `Match`) live in
`gdt.automatch.model` / `gdt.automatch.requirement`, which are not part of the
source tree here; they are modelled from the spec's data-model section (§3/§6).
The feasibility oracle `Match.is_match_ok` is, per the spec, an external
collaborator and is taken as an oracle parameter `ok : Match → Bool`.

Python-level randomness (`random.randrange`, `random.shuffle`) is embedded as
an infinite stream of natural numbers `g : Nat → Nat` together with a counter
threaded through the computation: `randrange(n)` reads one number modulo `n`,
and `shuffle` consumes `|l|` numbers, repeatedly extracting the element at the
indicated position.  Every permutation / index is reachable for a suitable `g`,
and every `g` yields a run the Python code could perform.

Python exceptions (`ValueError` from `int(...)`, `AttributeError` from the
`None` dereference in `choose_host`) are embedded as `Except String`.
-/

namespace Isotropic

/-- Modelled from the spec: a `Player` has an identity (`pname`) and the set of
content packages it owns (`sets_owned`), used only for host tie-breaking. -/
structure Player where
  pname : String
  sets_owned : List String
deriving DecidableEq, Inhabited

/-- A Python value appearing as a `NumPlayers` bound: the code observes both
ints and strings arriving in `min_players` / `max_players`. -/
inductive PVal where
  | int (n : Int)
  | str (s : String)
deriving DecidableEq, Inhabited

/-- Modelled from the spec: the polymorphic `Requirement` variants consumed by
this matchmaker: `NumPlayers{min,max}`, `RatingSystem{value}` and
`VPCounter{value}` (score-display preference, `none` = unset). -/
inductive Requirement where
  | numPlayers (min_players max_players : PVal)
  | ratingSystem (rating_system : String)
  | vpCounter (vpcounter : Option Bool)
deriving DecidableEq, Inhabited

/-- Modelled from the spec: a `Seek` references its `Player` and carries an
ordered collection of `Requirement`s. -/
structure Seek where
  player : Player
  requirements : List Requirement
deriving DecidableEq, Inhabited

/-- Modelled from the spec: a `Match` holds the participating seeks (the code
passes the seek list as the `players` constructor argument and reads it back as
`match.seeks`), the rating system, the chosen host name, a room name and the
reconciled VP-counter setting. -/
structure Match where
  seeks : List Seek
  rating_system : String
  hostname : Option String
  roomname : Option String
  vpcounter : Option Bool
deriving DecidableEq, Inhabited

/-- Decimal-digit parser backing the `int(...)` model: `some` of the value of
a nonempty digit string, `none` on anything else. -/
def parseDigits : List Char → Option Nat
  | [] => none
  | cs =>
    cs.foldl
      (fun acc c =>
        match acc with
        | none => none
        | some n => if c.isDigit then some (n * 10 + (c.toNat - 48)) else none)
      (some 0)

/-- Python's `int(...)` applied to a string: an optional sign followed by at
least one decimal digit parses to its value, anything else raises
`ValueError`. -/
def pyStrInt (s : String) : Except String Int :=
  match s.data with
  | '-' :: rest =>
    match parseDigits rest with
    | some n => .ok (-(n : Int))
    | none => .error "ValueError"
  | '+' :: rest =>
    match parseDigits rest with
    | some n => .ok (n : Int)
    | none => .error "ValueError"
  | cs =>
    match parseDigits cs with
    | some n => .ok (n : Int)
    | none => .error "ValueError"

/-- Python's `int(...)` applied to a `NumPlayers` bound: an int passes through,
a string is parsed, and a non-coercible string raises `ValueError`. -/
def pyInt : PVal → Except String Int
  | .int n => .ok n
  | .str s => pyStrInt s

/-- The chained comparison `int(r.min_players) <= N <= int(r.max_players)`
from `accepts`: Python evaluates `int(min_players)` first, and evaluates
`int(max_players)` only when the first comparison already holds. -/
def numPlayersOk (N : Int) (lo hi : PVal) : Except String Bool := do
  let a ← pyInt lo
  if a ≤ N then
    let b ← pyInt hi
    pure (decide (N ≤ b))
  else
    pure false

/-- The body of the closure returned by `IsotropicMatchmaker.accepts`: walk the
seek's requirements in order; a `NumPlayers` requirement whose bounds reject
`N` returns `False` immediately, a `RatingSystem` requirement whose system
differs from `rsys` returns `False` immediately; otherwise continue, and accept
when the list is exhausted. -/
def acceptsReqs (N : Int) (rsys : String) : List Requirement → Except String Bool
  | [] => .ok true
  | .numPlayers lo hi :: rs => do
    let b ← numPlayersOk N lo hi
    if b then acceptsReqs N rsys rs else pure false
  | .ratingSystem t :: rs =>
    if t = rsys then acceptsReqs N rsys rs else .ok false
  | .vpCounter _ :: rs => acceptsReqs N rsys rs

/-- `IsotropicMatchmaker.accepts N rsys` applied to one seek. -/
def accepts (N : Int) (rsys : String) (seek : Seek) : Except String Bool :=
  acceptsReqs N rsys seek.requirements

/-- The three possible outcomes of `IsotropicMatchmaker.choose_host`:
`notFound` is Python's `return None`; `crash` is the uncaught
`AttributeError` raised by `max_host.pname` when `max_host` is still `None`. -/
inductive HostResult where
  | crash
  | notFound
  | found (m : Match)
deriving DecidableEq, Inhabited

/-- The first loop of `choose_host`: collect the players of all seeks `s` for
which the match with `hostname = s.player.pname` passes `is_match_ok`. -/
def possibleHosts (ok : Match → Bool) (m : Match) : List Player :=
  (m.seeks.filter fun s => ok { m with hostname := some s.player.pname }).map
    (fun s => s.player)

/-- The second loop of `choose_host`: starting from `max_hostsets = 0` and
`max_host = None`, replace the candidate whenever a player owns strictly more
sets than the running maximum. -/
def selectHost : List Player → Nat → Option Player → Option Player
  | [], _, best => best
  | h :: t, maxSets, best =>
    if h.sets_owned.length > maxSets then
      selectHost t h.sets_owned.length (some h)
    else
      selectHost t maxSets best

/-- `IsotropicMatchmaker.choose_host`: find the possible hosts, return `None`
when there are none, otherwise pick the one with the most sets via a strict
comparison against an initial count of 0 — which leaves `max_host = None`, and
hence crashes, when every possible host owns zero sets. -/
def choose_host (ok : Match → Bool) (m : Match) : HostResult :=
  let ph := possibleHosts ok m
  if ph.length = 0 then
    .notFound
  else
    match selectHost ph 0 none with
    | none => .crash
    | some host => .found { m with hostname := some host.pname }

/-- One extraction step of the shuffle embedding: with fuel `n`, read the next
random number, pick the element at that position (mod length) and continue on
the remainder.  `shuffleWith` instantiates the fuel with the list's length, so
the `getD` default is never reached. -/
def shuffleGo (g : Nat → Nat) : Nat → Nat → List Seek → List Seek
  | 0, _, _ => []
  | n + 1, ctr, l =>
    let i := g ctr % l.length
    l.getD i default :: shuffleGo g n (ctr + 1) (l.eraseIdx i)

/-- `random.shuffle(S)` with the random stream `g` starting at counter `ctr`:
produces a permutation of `S` and consumes `S.length` numbers. -/
def shuffleWith (g : Nat → Nat) (ctr : Nat) (l : List Seek) : List Seek :=
  shuffleGo g l.length ctr l

/-- `list(filter(p, xs))` for a predicate that may raise: elements are tested
in order and the first raised exception propagates. -/
def filterE (p : Seek → Except String Bool) : List Seek → Except String (List Seek)
  | [] => .ok []
  | x :: xs => do
    let b ← p x
    let rest ← filterE p xs
    pure (if b then x :: rest else rest)

/-- The score-display reconciliation inside `generate_matches`: start from
`None` and overwrite with every non-`None` `VPCounter` value encountered while
scanning all requirements of all seeks in order (last write wins). -/
def reconcileVP (seeks : List Seek) : Option Bool :=
  seeks.foldl
    (fun acc s =>
      s.requirements.foldl
        (fun acc r =>
          match r with
          | .vpCounter (some v) => some v
          | _ => acc)
        acc)
    none

/-- The finalization of a successful trial: assign the room `Outpost` and the
reconciled VP-counter setting (the Python scans `match.seeks`, which is exactly
the group's seek list). -/
def finalizeMatch (m : Match) : Match :=
  { m with roomname := some "Outpost", vpcounter := reconcileVP m.seeks }

/-- The `Match(players, rsys, None)` constructor call inside the trial loop:
a fresh match with no host, room or VP-counter value yet. -/
def mkTrialMatch (players : List Seek) (rsys : String) : Match :=
  { seeks := players, rating_system := rsys, hostname := none,
    roomname := none, vpcounter := none }

/-- The `for i in range(5)` trial loop for a fixed seek `X` at `(rsys, N)`:
each trial shuffles the current candidate list, groups `X` with the first
`N - 1` seeks of the shuffled list and asks `choose_host` for a feasible host.
Returns the updated random counter together with the finalized match and its
group on success, or `none` when all trials fail; a `crash` from `choose_host`
propagates as Python's uncaught `AttributeError`. -/
def trials (ok : Match → Bool) (g : Nat → Nat) (rsys : String) (N : Nat)
    (X : Seek) : Nat → Nat → List Seek →
    Except String (Nat × Option (Match × List Seek))
  | 0, ctr, _ => .ok (ctr, none)
  | i + 1, ctr, S =>
    let S' := shuffleWith g ctr S
    let ctr' := ctr + S.length
    let players := X :: S'.take (N - 1)
    match choose_host ok (mkTrialMatch players rsys) with
    | .crash => .error "AttributeError"
    | .notFound => trials ok g rsys N X i ctr' S'
    | .found m => .ok (ctr', some (finalizeMatch m, players))

/-- The state threaded through the `(rsys, N)` loop nest of `generate_matches`:
the random-stream counter, the working pool (`seeks`) and the accumulated
match list. -/
structure GState where
  ctr : Nat
  pool : List Seek
  outMatches : List Match
deriving Inhabited

/-- The body of the `for N in [6, 5, 4, 3, 2]` loop of `generate_matches` at
one `(rsys, N)` combination: filter the working pool into the candidate list
`S`; skip when `|S| < N`; otherwise pop a random `X` from `S` and run the
5-trial loop; on success append the match and remove the whole group from the
working pool. -/
def runCombo (ok : Match → Bool) (g : Nat → Nat) (rsys : String) (N : Nat)
    (st : GState) : Except String GState := do
  let S ← filterE (accepts (N : Int) rsys) st.pool
  if S.length < N then
    pure st
  else
    let i := g st.ctr % S.length
    let X := S.getD i default
    let S1 := S.eraseIdx i
    let (ctr', res) ← trials ok g rsys N X 5 (st.ctr + 1) S1
    match res with
    | some (m, players) =>
      pure
        { ctr := ctr',
          pool := st.pool.filter fun s => decide (s ∉ players),
          outMatches := st.outMatches ++ [m] }
    | none => pure { st with ctr := ctr' }

/-- The fixed tier priority order of `generate_matches`. -/
def tiers : List String := ["pro", "casual", "unrated"]

/-- The fixed party-size order of `generate_matches`, largest first. -/
def sizes : List Nat := [6, 5, 4, 3, 2]

/-- The `(rsys, N)` combinations in the order the two nested `for` loops of
`generate_matches` visit them. -/
def combos : List (String × Nat) :=
  tiers.flatMap fun r => sizes.map fun n => (r, n)

/-- `IsotropicMatchmaker.generate_matches`: fold `runCombo` over all
`(rsys, N)` combinations, starting from the caller's seek collection (the
Python copies it into a local set, so the input is not mutated) and return the
accumulated matches. -/
def generate_matches (ok : Match → Bool) (g : Nat → Nat) (seeks : List Seek) :
    Except String (List Match) := do
  let st ← combos.foldlM (fun st c => runCombo ok g c.1 c.2 st)
    { ctr := 0, pool := seeks, outMatches := [] }
  pure st.outMatches

/-! ## Specification-side definitions and concrete instances

The definitions in this section are not translations of the source; they are
either specification-side characterizations (named `...Spec`) used to compare
the embedded code against the spec's words, or concrete inputs used to
evaluate the embedded code at specific points. -/

/-- The always-feasible oracle: every candidate host passes `is_match_ok`. -/
def okTrue : Match → Bool := fun _ => true

/-- The never-feasible oracle: no candidate host passes `is_match_ok`. -/
def okFalse : Match → Bool := fun _ => false

/-- The all-zeros random stream: `randrange` always returns 0 and `shuffle`
leaves the list in place. -/
def g0 : Nat → Nat := fun _ => 0

/-- A seek by a player owning one content set, requiring exactly a 2-player
casual game and expressing no score-display preference. -/
def casual22 (name : String) : Seek :=
  { player := { pname := name, sets_owned := ["Base"] },
    requirements := [.numPlayers (.int 2) (.int 2), .ratingSystem "casual"] }

/-- The spec's scenario input: 6 seeks, all casual, PartySize{2,2} each. -/
def sixSeeks : List Seek :=
  [casual22 "p1", casual22 "p2", casual22 "p3", casual22 "p4",
   casual22 "p5", casual22 "p6"]

/-- Four seeks, all casual, PartySize{2,2} each. -/
def fourSeeks : List Seek :=
  [casual22 "q1", casual22 "q2", casual22 "q3", casual22 "q4"]

/-- The single match the embedded code produces from `fourSeeks` under
`okTrue` and the all-zeros random stream. -/
def c1Expected : Match :=
  { seeks := [casual22 "q1", casual22 "q2"], rating_system := "casual",
    hostname := some "q1", roomname := some "Outpost", vpcounter := none }

/-- The single match the embedded code produces from `sixSeeks` under
`okTrue` and the all-zeros random stream. -/
def c2Expected : Match :=
  { seeks := [casual22 "p1", casual22 "p2"], rating_system := "casual",
    hostname := some "p1", roomname := some "Outpost", vpcounter := none }

/-- A two-member candidate group in which every member owns zero content
sets. -/
def zeroSetsPair : Match :=
  { seeks := [{ player := { pname := "u", sets_owned := [] },
                requirements := [] },
              { player := { pname := "v", sets_owned := [] },
                requirements := [] }],
    rating_system := "pro", hostname := none, roomname := none,
    vpcounter := none }

/-- A candidate group whose only member owns zero content sets. -/
def zeroSetsMatch : Match :=
  { seeks := [{ player := { pname := "z", sets_owned := [] },
                requirements := [] }],
    rating_system := "casual", hostname := none, roomname := none,
    vpcounter := none }

/-- A seek whose `NumPlayers` bound is a string that `int(...)` cannot
coerce. -/
def badSeek : Seek :=
  { player := { pname := "bad", sets_owned := [] },
    requirements := [.numPlayers (.str "abc") (.int 2)] }

/-- Whether a requirement's numeric bounds are coercible to integers (always
true for the variants without numeric bounds). -/
def coercibleReq : Requirement → Bool
  | .numPlayers lo hi => (pyInt lo).isOk && (pyInt hi).isOk
  | .ratingSystem _ => true
  | .vpCounter _ => true

/-- Specification-side satisfaction of one requirement, following the spec's
words: every `PartySize` requirement must satisfy
`min_players <= N <= max_players` after integer coercion, every `RatingTier`
requirement must equal the target tier exactly, and other requirements do not
constrain the predicate.  (The coerced value is read through a default that is
only reachable for non-coercible bounds.) -/
def reqSatSpec (N : Int) (rsys : String) : Requirement → Bool
  | .numPlayers lo hi =>
    decide (((pyInt lo).toOption.getD 0) ≤ N) &&
      decide (N ≤ ((pyInt hi).toOption.getD 0))
  | .ratingSystem t => t = rsys
  | .vpCounter _ => true

/-- The score-display preference a single requirement contributes: `some`
only for a `VPCounter` requirement carrying a non-unset value. -/
def vpPref : Requirement → Option Bool
  | .vpCounter (some v) => some v
  | _ => none

/-- Specification-side score-display reconciliation, following the spec's
words: the last non-unset `ScoreDisplayPreference` value encountered when
scanning all requirements of all seeks in iteration order. -/
def reconcileVPSpec (seeks : List Seek) : Option Bool :=
  ((seeks.flatMap fun s => s.requirements).filterMap vpPref).getLast?

/-- A loop state with two eligible casual PartySize{2,2} seeks and no matches
yet. -/
def failSt : GState :=
  { ctr := 1, pool := [casual22 "a", casual22 "b"], outMatches := [] }

/-- The loop state after one `("casual", 2)` combination on `failSt` under the
never-feasible oracle: the counter advanced by one `randrange` and five
shuffles of a singleton list, the pool and match list untouched. -/
def failSt' : GState :=
  { ctr := 7, pool := [casual22 "a", casual22 "b"], outMatches := [] }

/-- A casual PartySize{2,2} seek that also carries ScoreDisplayPreference
`on`. -/
def vpSeekOn : Seek :=
  { player := { pname := "a", sets_owned := ["Base"] },
    requirements := [.numPlayers (.int 2) (.int 2), .ratingSystem "casual",
      .vpCounter (some true)] }

/-- The match the embedded code produces from `[vpSeekOn, casual22 "b"]`
under `okTrue` and the all-zeros random stream: its reconciled score-display
setting is `on`. -/
def vpExpected : Match :=
  { seeks := [vpSeekOn, casual22 "b"], rating_system := "casual",
    hostname := some "a", roomname := some "Outpost",
    vpcounter := some true }

/-- One seek of player "a": a casual game of 2 or 3 players. -/
def dupSeekA1 : Seek :=
  { player := { pname := "a", sets_owned := ["Base"] },
    requirements := [.numPlayers (.int 2) (.int 3), .ratingSystem "casual"] }

/-- A second, structurally distinct seek of the same player "a": a casual
game of exactly 2 players. -/
def dupSeekA2 : Seek :=
  { player := { pname := "a", sets_owned := ["Base"] },
    requirements := [.numPlayers (.int 2) (.int 2), .ratingSystem "casual"] }

/-- A casual 2-or-3-player seek of player "b". -/
def dupSeekB : Seek :=
  { player := { pname := "b", sets_owned := ["Base"] },
    requirements := [.numPlayers (.int 2) (.int 3), .ratingSystem "casual"] }

/-- A casual 2-or-3-player seek of player "c". -/
def dupSeekC : Seek :=
  { player := { pname := "c", sets_owned := ["Base"] },
    requirements := [.numPlayers (.int 2) (.int 3), .ratingSystem "casual"] }

/-- A casual exactly-2-player seek of player "d". -/
def dupSeekD : Seek :=
  { player := { pname := "d", sets_owned := ["Base"] },
    requirements := [.numPlayers (.int 2) (.int 2), .ratingSystem "casual"] }

/-- A pool in which player "a" owns two distinct seeks: one accepting 2-3
players and one accepting exactly 2. -/
def dupSeeks : List Seek := [dupSeekA1, dupSeekA2, dupSeekB, dupSeekC, dupSeekD]

/-- The first match produced from `dupSeeks`: the `("casual", 3)` combination
consumes player "a"'s 2-3-player seek together with "b" and "c". -/
def dupM1 : Match :=
  { seeks := [dupSeekA1, dupSeekB, dupSeekC], rating_system := "casual",
    hostname := some "a", roomname := some "Outpost", vpcounter := none }

/-- The second match produced from `dupSeeks`: the `("casual", 2)`
combination consumes player "a"'s remaining exactly-2-player seek together
with "d", so player "a" appears in both matches. -/
def dupM2 : Match :=
  { seeks := [dupSeekA2, dupSeekD], rating_system := "casual",
    hostname := some "a", roomname := some "Outpost", vpcounter := none }

/-- The priority rank of a rating tier: pro before casual before unrated. -/
def tierRank : String → Nat
  | "pro" => 0
  | "casual" => 1
  | "unrated" => 2
  | _ => 3

/-- The loop invariant behind the disjointness property: the pool and every
emitted group come from the input, no emitted seek is still in the pool, and
the emitted groups are pairwise disjoint. -/
def DisjInv (inp : List Seek) (st : GState) : Prop :=
  (∀ s ∈ st.pool, s ∈ inp) ∧
  (∀ m ∈ st.outMatches, ∀ s ∈ m.seeks, s ∈ inp) ∧
  (∀ m ∈ st.outMatches, ∀ s ∈ m.seeks, s ∉ st.pool) ∧
  st.outMatches.Pairwise (fun a b => ∀ s ∈ a.seeks, s ∉ b.seeks)

/-! ## Helper lemmas -/

@[simp]
theorem except_bind_ok {α β ε : Type} (a : α) (f : α → Except ε β) :
    (Except.ok a >>= f) = f a := rfl

@[simp]
theorem except_bind_err {α β ε : Type} (e : ε) (f : α → Except ε β) :
    ((Except.error e : Except ε α) >>= f) = Except.error e := rfl

@[simp]
theorem except_pure_eq {α ε : Type} (a : α) :
    (pure a : Except ε α) = Except.ok a := rfl

theorem pop_perm (l : List Seek) (k : Nat) (h : l ≠ []) :
    l.Perm (l.getD (k % l.length) default :: l.eraseIdx (k % l.length)) := by
  have hlen : 0 < l.length := List.length_pos.mpr h
  have hk : k % l.length < l.length := Nat.mod_lt _ hlen
  rw [List.getD_eq_getElem l default hk]
  exact (List.perm_cons_erase (List.getElem_mem hk)).trans
    (List.Perm.cons _ (List.erase_getElem hk))

theorem shuffleGo_perm (g : Nat → Nat) :
    ∀ (n : Nat) (ctr : Nat) (l : List Seek), l.length = n →
      (shuffleGo g n ctr l).Perm l := by
  intro n
  induction n with
  | zero =>
    intro ctr l hl
    have : l = [] := List.length_eq_zero.mp hl
    simp [this, shuffleGo]
  | succ n ih =>
    intro ctr l hl
    have hne : l ≠ [] := by
      intro h
      simp [h] at hl
    have hlen : 0 < l.length := List.length_pos.mpr hne
    have hk : g ctr % l.length < l.length := Nat.mod_lt _ hlen
    have herase : (l.eraseIdx (g ctr % l.length)).length = n := by
      rw [List.length_eraseIdx, if_pos hk]
      omega
    have hrec := ih (ctr + 1) (l.eraseIdx (g ctr % l.length)) herase
    have hunfold : shuffleGo g (n + 1) ctr l =
        l.getD (g ctr % l.length) default ::
          shuffleGo g n (ctr + 1) (l.eraseIdx (g ctr % l.length)) := rfl
    rw [hunfold]
    exact (List.Perm.cons _ hrec).trans (pop_perm l (g ctr) hne).symm

theorem shuffleWith_perm (g : Nat → Nat) (ctr : Nat) (l : List Seek) :
    (shuffleWith g ctr l).Perm l :=
  shuffleGo_perm g l.length ctr l rfl

theorem shuffleWith_length (g : Nat → Nat) (ctr : Nat) (l : List Seek) :
    (shuffleWith g ctr l).length = l.length :=
  (shuffleWith_perm g ctr l).length_eq

theorem filterE_sublist (p : Seek → Except String Bool) :
    ∀ (l S : List Seek), filterE p l = .ok S → S.Sublist l := by
  intro l
  induction l with
  | nil =>
    intro S h
    simp only [filterE, Except.ok.injEq] at h
    subst h
    exact List.Sublist.refl _
  | cons x xs ih =>
    intro S h
    simp only [filterE] at h
    cases hx : p x with
    | error e =>
      rw [hx] at h
      simp at h
    | ok b =>
      rw [hx] at h
      cases hrest : filterE p xs with
      | error e =>
        rw [hrest] at h
        simp at h
      | ok rest =>
        rw [hrest] at h
        have hb := ih rest hrest
        simp only [except_bind_ok, except_pure_eq, Except.ok.injEq] at h
        subst h
        by_cases hbb : b = true
        · simp only [hbb, if_pos]
          exact List.Sublist.cons₂ x hb
        · simp only [eq_false_of_ne_true hbb]
          simp only [if_neg Bool.false_ne_true]
          exact List.Sublist.cons x hb

theorem selectHost_some (l : List Player) :
    ∀ (m : Nat) (b : Player), selectHost l m (some b) ≠ none := by
  induction l with
  | nil => intro m b; simp [selectHost]
  | cons h t ih =>
    intro m b
    simp only [selectHost]
    by_cases hc : h.sets_owned.length > m
    · rw [if_pos hc]; exact ih _ _
    · rw [if_neg hc]; exact ih _ _

theorem selectHost_none_iff (l : List Player) :
    ∀ (m : Nat), selectHost l m none = none ↔ ∀ p ∈ l, p.sets_owned.length ≤ m := by
  induction l with
  | nil => intro m; simp [selectHost]
  | cons h t ih =>
    intro m
    simp only [selectHost]
    by_cases hc : h.sets_owned.length > m
    · rw [if_pos hc]
      simp only [List.mem_cons]
      constructor
      · intro hcontra
        exact absurd hcontra (selectHost_some t _ h)
      · intro hall
        exact absurd (hall h (Or.inl rfl)) (Nat.not_le.mpr hc)
    · rw [if_neg hc]
      rw [ih m]
      simp only [List.mem_cons]
      constructor
      · intro hall p hp
        rcases hp with rfl | hp
        · exact Nat.not_lt.mp hc
        · exact hall p hp
      · intro hall p hp
        exact hall p (Or.inr hp)

theorem selectHost_mem (l : List Player) :
    ∀ (m : Nat) (b : Option Player) (p : Player),
      selectHost l m b = some p → p ∈ l ∨ b = some p := by
  induction l with
  | nil =>
    intro m b p h
    simp [selectHost] at h
    exact Or.inr (by rw [h])
  | cons x t ih =>
    intro m b p h
    simp only [selectHost] at h
    by_cases hc : x.sets_owned.length > m
    · rw [if_pos hc] at h
      rcases ih _ _ _ h with hm | hb
      · exact Or.inl (List.mem_cons_of_mem _ hm)
      · cases hb
        exact Or.inl (List.mem_cons_self _ _)
    · rw [if_neg hc] at h
      rcases ih _ _ _ h with hm | hb
      · exact Or.inl (List.mem_cons_of_mem _ hm)
      · exact Or.inr hb

theorem choose_host_found_inv (ok : Match → Bool) (m m' : Match)
    (h : choose_host ok m = .found m') :
    ∃ host, host ∈ possibleHosts ok m ∧
      m' = { m with hostname := some host.pname } := by
  unfold choose_host at h
  by_cases hlen : (possibleHosts ok m).length = 0
  · rw [if_pos hlen] at h
    cases h
  · rw [if_neg hlen] at h
    cases hsel : selectHost (possibleHosts ok m) 0 none with
    | none => rw [hsel] at h; cases h
    | some host =>
      rw [hsel] at h
      cases h
      refine ⟨host, ?_, rfl⟩
      rcases selectHost_mem _ _ _ _ hsel with hm | hb
      · exact hm
      · cases hb

theorem trials_none_ctr (ok : Match → Bool) (g : Nat → Nat) (rsys : String)
    (N : Nat) (X : Seek) :
    ∀ (fuel ctr : Nat) (S : List Seek) (ctr' : Nat),
      trials ok g rsys N X fuel ctr S = .ok (ctr', none) →
      ctr' = ctr + fuel * S.length := by
  intro fuel
  induction fuel with
  | zero =>
    intro ctr S ctr' h
    simp only [trials, Except.ok.injEq, Prod.mk.injEq] at h
    omega
  | succ fuel ih =>
    intro ctr S ctr' h
    simp only [trials] at h
    cases hch : choose_host ok
        (mkTrialMatch (X :: (shuffleWith g ctr S).take (N - 1)) rsys) with
    | crash => rw [hch] at h; cases h
    | found m => rw [hch] at h; simp at h
    | notFound =>
      rw [hch] at h
      have := ih (ctr + S.length) (shuffleWith g ctr S) ctr' h
      rw [shuffleWith_length] at this
      rw [Nat.succ_mul]
      omega

theorem trials_some_spec (ok : Match → Bool) (g : Nat → Nat) (rsys : String)
    (N : Nat) (X : Seek) :
    ∀ (fuel ctr : Nat) (S : List Seek) (ctr' : Nat) (m : Match)
      (players : List Seek),
      trials ok g rsys N X fuel ctr S = .ok (ctr', some (m, players)) →
      ∃ T : List Seek, T.Perm S ∧ players = X :: T.take (N - 1) ∧
        ∃ h, choose_host ok (mkTrialMatch players rsys) = .found h ∧
          m = finalizeMatch h := by
  intro fuel
  induction fuel with
  | zero =>
    intro ctr S ctr' m players h
    simp only [trials, Except.ok.injEq, Prod.mk.injEq] at h
    exact absurd h.2 (by simp)
  | succ fuel ih =>
    intro ctr S ctr' m players h
    simp only [trials] at h
    cases hch : choose_host ok
        (mkTrialMatch (X :: (shuffleWith g ctr S).take (N - 1)) rsys) with
    | crash => rw [hch] at h; cases h
    | notFound =>
      rw [hch] at h
      obtain ⟨T, hT, hp, hrest⟩ := ih (ctr + S.length) (shuffleWith g ctr S)
        ctr' m players h
      exact ⟨T, hT.trans (shuffleWith_perm g ctr S), hp, hrest⟩
    | found m0 =>
      rw [hch] at h
      simp only [Except.ok.injEq, Prod.mk.injEq, Option.some.injEq] at h
      obtain ⟨-, hm, hp⟩ := h
      refine ⟨shuffleWith g ctr S, shuffleWith_perm g ctr S, hp.symm, m0, ?_, hm.symm⟩
      rw [hp] at hch
      exact hch

/-- What one `(rsys, N)` combination can do to the state: either nothing
observable (no candidate set of size `N`, or all five trials failed — the pool
and the match list are untouched), or exactly one new match is appended whose
group was drawn from the current pool and removed from it wholesale. -/
theorem runCombo_spec (ok : Match → Bool) (g : Nat → Nat) (r : String)
    (n : Nat) (hn : 1 ≤ n) (st st' : GState)
    (h : runCombo ok g r n st = .ok st') :
    (st'.pool = st.pool ∧ st'.outMatches = st.outMatches) ∨
    ∃ m players,
      st'.outMatches = st.outMatches ++ [m] ∧
      st'.pool = st.pool.filter (fun s => decide (s ∉ players)) ∧
      (∀ s ∈ players, s ∈ st.pool) ∧
      m.seeks = players ∧
      m.rating_system = r ∧
      m.roomname = some "Outpost" ∧
      m.vpcounter = reconcileVP players := by
  unfold runCombo at h
  cases hS : filterE (accepts (n : Int) r) st.pool with
  | error e => rw [hS] at h; simp at h
  | ok S =>
    rw [hS] at h
    simp only [except_bind_ok] at h
    by_cases hlen : S.length < n
    · rw [if_pos hlen] at h
      simp only [except_pure_eq, Except.ok.injEq] at h
      subst h
      exact Or.inl ⟨rfl, rfl⟩
    · rw [if_neg hlen] at h
      have hSsub : S.Sublist st.pool := filterE_sublist _ _ _ hS
      have hSne : S ≠ [] := by
        intro hnil
        rw [hnil] at hlen
        simp at hlen
        omega
      have hSpos : 0 < S.length := List.length_pos.mpr hSne
      have hidx : g st.ctr % S.length < S.length := Nat.mod_lt _ hSpos
      cases ht : trials ok g r n (S.getD (g st.ctr % S.length) default) 5
          (st.ctr + 1) (S.eraseIdx (g st.ctr % S.length)) with
      | error e => rw [ht] at h; simp at h
      | ok p =>
        rw [ht] at h
        obtain ⟨ctr', res⟩ := p
        cases res with
        | none =>
          simp only [except_bind_ok, except_pure_eq, Except.ok.injEq] at h
          subst h
          exact Or.inl ⟨rfl, rfl⟩
        | some mp =>
          obtain ⟨m, players⟩ := mp
          simp only [except_bind_ok, except_pure_eq, Except.ok.injEq] at h
          subst h
          refine Or.inr ⟨m, players, rfl, rfl, ?_, ?_⟩
          · -- the group is drawn from the pool
            obtain ⟨T, hT, hp, h0, hfound, hfin⟩ :=
              trials_some_spec ok g r n _ 5 _ _ _ _ _ ht
            intro s hs
            rw [hp] at hs
            rcases List.mem_cons.mp hs with rfl | hs
            · rw [List.getD_eq_getElem S default hidx]
              exact hSsub.subset (List.getElem_mem hidx)
            · have : s ∈ T := List.take_subset _ _ hs
              have : s ∈ S.eraseIdx (g st.ctr % S.length) := hT.subset this
              exact hSsub.subset ((List.eraseIdx_sublist S _).subset this)
          · -- shape of the emitted match
            obtain ⟨T, hT, hp, h0, hfound, hfin⟩ :=
              trials_some_spec ok g r n _ 5 _ _ _ _ _ ht
            obtain ⟨host, hmem, hm'⟩ := choose_host_found_inv ok _ _ hfound
            subst hfin
            subst hm'
            simp [finalizeMatch, mkTrialMatch]

/-- A property of the loop state preserved by every `(rsys, N)` step is
preserved by the whole loop nest. -/
theorem foldCombos_inv (ok : Match → Bool) (g : Nat → Nat) (P : GState → Prop)
    (hstep : ∀ r n st st', (r, n) ∈ combos → runCombo ok g r n st = .ok st' →
      P st → P st') :
    ∀ (cs : List (String × Nat)), (∀ c ∈ cs, c ∈ combos) →
      ∀ (st st' : GState),
        cs.foldlM (fun st c => runCombo ok g c.1 c.2 st) st = .ok st' →
        P st → P st' := by
  intro cs
  induction cs with
  | nil =>
    intro _ st st' h hP
    simp only [List.foldlM_nil, except_pure_eq, Except.ok.injEq] at h
    subst h
    exact hP
  | cons c cs ih =>
    intro hmem st st' h hP
    rw [List.foldlM_cons] at h
    cases hc : runCombo ok g c.1 c.2 st with
    | error e => rw [hc] at h; simp at h
    | ok st1 =>
      rw [hc] at h
      simp only [except_bind_ok] at h
      exact ih (fun d hd => hmem d (List.mem_cons_of_mem _ hd)) st1 st' h
        (hstep c.1 c.2 st st1 (hmem c (List.mem_cons_self _ _)) hc hP)

/-- Every `(rsys, N)` combination visited by `generate_matches` has a party
size of at least 1. -/
theorem combos_size_pos : ∀ c ∈ combos, 1 ≤ c.2 := by decide

theorem runCombo_disjInv (ok : Match → Bool) (g : Nat → Nat)
    (inp : List Seek) (r : String) (n : Nat) (st st' : GState)
    (hc : (r, n) ∈ combos) (h : runCombo ok g r n st = .ok st')
    (hI : DisjInv inp st) : DisjInv inp st' := by
  obtain ⟨hpool, hmFrom, hmNot, hpw⟩ := hI
  rcases runCombo_spec ok g r n (combos_size_pos _ hc) st st' h with
    ⟨hp, hm⟩ | ⟨m, players, hm, hp, hfrom, hseeks, -, -, -⟩
  · exact ⟨by rw [hp]; exact hpool, by rw [hm]; exact hmFrom,
      by rw [hp, hm]; exact hmNot, by rw [hm]; exact hpw⟩
  · refine ⟨?_, ?_, ?_, ?_⟩
    · intro s hs
      rw [hp] at hs
      exact hpool s (List.mem_filter.mp hs).1
    · intro m' hm' s hs
      rw [hm] at hm'
      rcases List.mem_append.mp hm' with hm' | hm'
      · exact hmFrom m' hm' s hs
      · rcases List.mem_singleton.mp hm' with rfl
        rw [hseeks] at hs
        exact hpool s (hfrom s hs)
    · intro m' hm' s hs
      rw [hm] at hm'
      rw [hp]
      intro hsPool
      have hsOld := (List.mem_filter.mp hsPool).1
      have hsNotPl : s ∉ players := by
        have := (List.mem_filter.mp hsPool).2
        simpa using this
      rcases List.mem_append.mp hm' with hm' | hm'
      · exact hmNot m' hm' s hs hsOld
      · rcases List.mem_singleton.mp hm' with rfl
        rw [hseeks] at hs
        exact hsNotPl hs
    · rw [hm]
      rw [List.pairwise_append]
      refine ⟨hpw, List.pairwise_singleton _ _, ?_⟩
      intro a ha b hb s hs
      rcases List.mem_singleton.mp hb with rfl
      rw [hseeks]
      intro hsb
      exact hmNot a ha s hs (hfrom s hsb)

/-- Inversion of a successful `generate_matches` run into its loop-nest
fold. -/
theorem generate_matches_ok_inv (ok : Match → Bool) (g : Nat → Nat)
    (seeks : List Seek) (ms : List Match)
    (h : generate_matches ok g seeks = .ok ms) :
    ∃ stF : GState,
      combos.foldlM (fun st c => runCombo ok g c.1 c.2 st)
        { ctr := 0, pool := seeks, outMatches := [] } = .ok stF ∧
      ms = stF.outMatches := by
  unfold generate_matches at h
  cases hf : combos.foldlM (fun st c => runCombo ok g c.1 c.2 st)
      { ctr := 0, pool := seeks, outMatches := [] } with
  | error e => rw [hf] at h; simp at h
  | ok stF =>
    rw [hf] at h
    simp only [except_bind_ok, except_pure_eq, Except.ok.injEq] at h
    exact ⟨stF, rfl, h.symm⟩

/-- C3 — the counterexample to the unconditional player half of the
disjointness claim: a pool in which player "a" owns two distinct seeks (one
accepting a 2-3-player casual game, one accepting exactly 2) yields, in one
invocation, two matches that both contain a seek of player "a" — the
`("casual", 3)` combination consumes one of "a"'s seeks, the `("casual", 2)`
combination the other.  (Seek-level disjointness still holds: the two seeks
of "a" are distinct objects.) -/
theorem generate_matches_player_in_two_matches :
    generate_matches okTrue g0 dupSeeks = .ok [dupM1, dupM2] ∧
    (dupM1.seeks.map fun s => s.player.pname).contains "a" = true ∧
    (dupM2.seeks.map fun s => s.player.pname).contains "a" = true :=
  ⟨by rfl, by rfl, by rfl⟩

/-- C3 as amended — disjointness: the matches returned by one successful
call to `generate_matches` have pairwise disjoint seek sets, for every
feasibility oracle, every outcome of the random choices and every input
pool; and provided distinct input seeks carry distinct player names (a
proviso the duplicate-player pool `dupSeeks` shows is necessary), the
participant player sets are pairwise disjoint as well. -/
theorem generate_matches_disjoint (ok : Match → Bool) (g : Nat → Nat)
    (seeks : List Seek) (ms : List Match)
    (h : generate_matches ok g seeks = .ok ms) :
    ms.Pairwise (fun a b => ∀ s ∈ a.seeks, s ∉ b.seeks) ∧
    ((∀ s1 ∈ seeks, ∀ s2 ∈ seeks, s1.player.pname = s2.player.pname → s1 = s2) →
      ms.Pairwise (fun a b => ∀ s ∈ a.seeks, ∀ t ∈ b.seeks,
        s.player.pname ≠ t.player.pname)) := by
  obtain ⟨stF, hf, hms⟩ := generate_matches_ok_inv ok g seeks ms h
  have hInv : DisjInv seeks stF := by
    refine foldCombos_inv ok g (DisjInv seeks) ?_ combos (fun c hc => hc) _ _ hf ?_
    · intro r n st st' hc hrun hI
      exact runCombo_disjInv ok g seeks r n st st' hc hrun hI
    · exact ⟨fun s hs => hs, by simp [DisjInv], by simp [DisjInv], List.Pairwise.nil⟩
  obtain ⟨-, hFrom, -, hpw⟩ := hInv
  rw [hms]
  refine ⟨hpw, ?_⟩
  intro hinj
  refine List.Pairwise.imp_of_mem ?_ hpw
  intro a b ha hb hdisj s hsa t htb heq
  have hs : s ∈ seeks := hFrom a ha s hsa
  have ht : t ∈ seeks := hFrom b hb t htb
  have : s = t := hinj s hs t ht heq
  rw [this] at hsa
  exact hdisj t hsa htb

/-- Witness for C3 at a concrete input: the single-match output obtained from
`sixSeeks` under the always-true oracle and the all-zeros random stream. -/
theorem generate_matches_disjoint_witness :
    ([c2Expected].Pairwise (fun a b => ∀ s ∈ a.seeks, s ∉ b.seeks) ∧
      ((∀ s1 ∈ sixSeeks, ∀ s2 ∈ sixSeeks,
          s1.player.pname = s2.player.pname → s1 = s2) →
        [c2Expected].Pairwise (fun a b => ∀ s ∈ a.seeks, ∀ t ∈ b.seeks,
          s.player.pname ≠ t.player.pname))) :=
  generate_matches_disjoint okTrue g0 sixSeeks [c2Expected] (by rfl)

/-- C1 — refuted on the code (code bug): with four eligible casual
PartySize{2,2} seeks, an always-true feasibility oracle and the all-zeros
random stream, one invocation emits exactly one match at `("casual", 2)` and
leaves the other two eligible seeks unmatched: the implementation picks a
single `X` per `(tier, N)` combination and never re-enters the pick-and-trial
step, although `|S| = 2 ≥ N` still holds after the first success. -/
theorem generate_matches_four_casual_single_match :
    generate_matches okTrue g0 fourSeeks = .ok [c1Expected] := by rfl

/-- C2 — refuted on the code (code bug): the spec's 6-seek casual
PartySize{2,2} scenario, with every candidate group host-feasible, produces
exactly one 2-player casual match instead of the expected three, because the
`while |S| >= N` loop of the documented algorithm is missing from the
implementation. -/
theorem generate_matches_six_casual_single_match :
    generate_matches okTrue g0 sixSeeks = .ok [c2Expected] := by rfl

/-- C4 — refuted on the code (code bug): a candidate group whose only member
passes the feasibility oracle but owns zero content sets makes `choose_host`
dereference `None` (an uncaught `AttributeError`) instead of returning the
match with that eligible player as host. -/
theorem choose_host_zero_sets_crash :
    choose_host okTrue zeroSetsMatch = .crash := by rfl

/-- C10 — refuted on the code (code bug): a `NumPlayers` bound that `int(...)`
cannot coerce makes the requirement predicate raise a bare `ValueError` from
the conversion itself, not any attributed `InvalidRequirement` condition. -/
theorem accepts_bad_bound_value_error :
    accepts 2 "casual" badSeek = .error "ValueError" := by rfl

/-- C5 — confirmed: `choose_host` crashes exactly when the legal-host set is
nonempty but every legal host owns zero content sets — the strict `>` against
the initial count of 0 never fires, the final host assignment dereferences
`None`, and hence `choose_host` is total only when some legal host owns at
least one set. -/
theorem choose_host_crash_iff (ok : Match → Bool) (m : Match) :
    choose_host ok m = .crash ↔
      (possibleHosts ok m ≠ [] ∧
        ∀ p ∈ possibleHosts ok m, p.sets_owned = []) := by
  unfold choose_host
  by_cases hlen : (possibleHosts ok m).length = 0
  · rw [if_pos hlen]
    have hemp : possibleHosts ok m = [] := List.length_eq_zero.mp hlen
    simp [hemp]
  · rw [if_neg hlen]
    have hne : possibleHosts ok m ≠ [] := by
      intro hh
      exact hlen (by rw [hh]; rfl)
    cases hsel : selectHost (possibleHosts ok m) 0 none with
    | none =>
      constructor
      · intro _
        refine ⟨hne, ?_⟩
        intro p hp
        have hle := (selectHost_none_iff _ 0).mp hsel p hp
        exact List.length_eq_zero.mp (Nat.le_zero.mp hle)
      · intro _
        rfl
    | some host =>
      constructor
      · intro hcontra
        cases hcontra
      · rintro ⟨-, hall⟩
        have hnone : selectHost (possibleHosts ok m) 0 none = none := by
          refine (selectHost_none_iff _ 0).mpr ?_
          intro p hp
          rw [hall p hp]
          exact Nat.le_refl 0
        rw [hsel] at hnone
        cases hnone

/-- Witness for C5: the crash characterization instantiated at the concrete
zero-sets candidate group. -/
theorem choose_host_crash_iff_witness :
    choose_host okTrue zeroSetsPair = HostResult.crash :=
  (choose_host_crash_iff okTrue zeroSetsPair).mpr (by decide)

/-- `acceptsReqs` against the spec's per-requirement characterization, for
requirement lists whose numeric bounds all coerce. -/
theorem acceptsReqs_spec_iff (N : Int) (rsys : String) :
    ∀ (l : List Requirement), (∀ r ∈ l, coercibleReq r = true) →
      (acceptsReqs N rsys l = .ok true ↔
        ∀ r ∈ l, reqSatSpec N rsys r = true) := by
  intro l
  induction l with
  | nil =>
    intro _
    simp [acceptsReqs]
  | cons r rs ih =>
    intro hco
    have hcoHead : coercibleReq r = true := hco r (List.mem_cons_self _ _)
    have hcoTail : ∀ q ∈ rs, coercibleReq q = true :=
      fun q hq => hco q (List.mem_cons_of_mem _ hq)
    rw [List.forall_mem_cons]
    cases r with
    | numPlayers lo hi =>
      simp only [coercibleReq, Bool.and_eq_true] at hcoHead
      obtain ⟨hlo, hhi⟩ := hcoHead
      obtain ⟨a, ha⟩ : ∃ a, pyInt lo = .ok a := by
        cases hx : pyInt lo with
        | ok a => exact ⟨a, rfl⟩
        | error e => rw [hx] at hlo; cases hlo
      obtain ⟨b, hb⟩ : ∃ b, pyInt hi = .ok b := by
        cases hx : pyInt hi with
        | ok b => exact ⟨b, rfl⟩
        | error e => rw [hx] at hhi; cases hhi
      have hsat : reqSatSpec N rsys (.numPlayers lo hi) =
          (decide (a ≤ N) && decide (N ≤ b)) := by
        simp [reqSatSpec, ha, hb, Except.toOption]
      by_cases haN : a ≤ N
      · by_cases hNb : N ≤ b
        · have hnum : numPlayersOk N lo hi = .ok true := by
            simp [numPlayersOk, ha, hb, if_pos haN, hNb]
          simp only [acceptsReqs, hnum, except_bind_ok, if_pos]
          rw [ih hcoTail, hsat]
          simp [haN, hNb]
        · have hnum : numPlayersOk N lo hi = .ok false := by
            simp [numPlayersOk, ha, hb, if_pos haN, hNb]
          simp only [acceptsReqs, hnum, except_bind_ok]
          rw [hsat]
          simp [hNb]
      · have hnum : numPlayersOk N lo hi = .ok false := by
          simp [numPlayersOk, ha, hb, if_neg haN]
        simp only [acceptsReqs, hnum, except_bind_ok]
        rw [hsat]
        simp [haN]
    | ratingSystem t =>
      by_cases ht : t = rsys
      · simp only [acceptsReqs, if_pos ht]
        rw [ih hcoTail]
        simp [reqSatSpec, ht]
      · simp only [acceptsReqs, if_neg ht]
        simp [reqSatSpec, ht]
    | vpCounter v =>
      simp only [acceptsReqs]
      rw [ih hcoTail]
      simp [reqSatSpec]

/-- C6 — confirmed: for every seek whose `PartySize` bounds all coerce to
integers, the predicate returned by `accepts N rsys` accepts the seek iff
every `PartySize` requirement it carries satisfies
`min_players <= N <= max_players` after coercion and every `RatingTier`
requirement it carries equals `rsys` exactly; a seek with no `PartySize`
(resp. `RatingTier`) requirement therefore accepts every `N` (resp. every
tier), the corresponding conjunct being vacuous. -/
theorem accepts_spec_iff (N : Int) (rsys : String) (s : Seek)
    (h : ∀ r ∈ s.requirements, coercibleReq r = true) :
    accepts N rsys s = .ok true ↔
      ∀ r ∈ s.requirements, reqSatSpec N rsys r = true :=
  acceptsReqs_spec_iff N rsys s.requirements h

/-- Witness for C6 at a concrete seek: the characterization instantiated at a
casual PartySize{2,2} seek and a 2-player casual game. -/
theorem accepts_spec_iff_witness :
    accepts 2 "casual" (casual22 "w") = Except.ok true :=
  (accepts_spec_iff 2 "casual" (casual22 "w") (by decide)).mpr (by decide)

/-- C7 — confirmed: an exhausted seek `X` costs exactly 5 trials (the random
counter advances by one full shuffle of the `N - 1`-candidate list per trial,
five times), and a `(tier, N)` combination that emits no match leaves the
working pool exactly as it was — `X` and all sampled co-members stay in the
pool, eligible for every later `(tier, N)` combination; only a successful
match removes seeks. -/
theorem trial_budget_and_pool_preservation :
    (∀ (ok : Match → Bool) (g : Nat → Nat) (rsys : String) (N : Nat)
       (X : Seek) (ctr : Nat) (S : List Seek) (ctr' : Nat),
       trials ok g rsys N X 5 ctr S = .ok (ctr', none) →
       ctr' = ctr + 5 * S.length) ∧
    (∀ (ok : Match → Bool) (g : Nat → Nat) (r : String) (n : Nat)
       (st st' : GState), 1 ≤ n →
       runCombo ok g r n st = .ok st' →
       st'.outMatches = st.outMatches →
       st'.pool = st.pool) := by
  constructor
  · intro ok g rsys N X ctr S ctr' h
    exact trials_none_ctr ok g rsys N X 5 ctr S ctr' h
  · intro ok g r n st st' hn h hm
    rcases runCombo_spec ok g r n hn st st' h with ⟨hp, -⟩ | ⟨m, players, hms, -, -⟩
    · exact hp
    · rw [hms] at hm
      have := congrArg List.length hm
      simp at this

/-- Witness for C7: five failed trials on a singleton candidate list advance
the counter from 2 to exactly 2 + 5 * 1 = 7, and the failed `("casual", 2)`
combination on `failSt` leaves the pool unchanged. -/
theorem trial_budget_and_pool_preservation_witness :
    (7 : Nat) = 2 + 5 * ([casual22 "b"] : List Seek).length ∧
    failSt'.pool = failSt.pool :=
  ⟨trial_budget_and_pool_preservation.1 okFalse g0 "casual" 2 (casual22 "a")
      2 [casual22 "b"] 7 (by rfl),
    trial_budget_and_pool_preservation.2 okFalse g0 "casual" 2 failSt failSt'
      (by decide) (by rfl) (by rfl)⟩

/-- Folding `runCombo` over any run of combinations sharing one tier only
appends matches of that tier. -/
theorem foldBlock_rating (ok : Match → Bool) (g : Nat → Nat) (r : String) :
    ∀ (cs : List (String × Nat)), (∀ c ∈ cs, c.1 = r ∧ 1 ≤ c.2) →
      ∀ (st st' : GState),
        cs.foldlM (fun st c => runCombo ok g c.1 c.2 st) st = .ok st' →
        ∃ tail, st'.outMatches = st.outMatches ++ tail ∧
          ∀ m ∈ tail, m.rating_system = r := by
  intro cs
  induction cs with
  | nil =>
    intro _ st st' h
    simp only [List.foldlM_nil, except_pure_eq, Except.ok.injEq] at h
    subst h
    exact ⟨[], by simp⟩
  | cons c cs ih =>
    intro hcs st st' h
    rw [List.foldlM_cons] at h
    cases hc : runCombo ok g c.1 c.2 st with
    | error e => rw [hc] at h; simp at h
    | ok st1 =>
      rw [hc] at h
      simp only [except_bind_ok] at h
      obtain ⟨hcr, hcn⟩ := hcs c (List.mem_cons_self _ _)
      obtain ⟨tail, htail, hrate⟩ :=
        ih (fun d hd => hcs d (List.mem_cons_of_mem _ hd)) st1 st' h
      rcases runCombo_spec ok g c.1 c.2 hcn st st1 hc with
        ⟨-, hm⟩ | ⟨m, players, hm, -, -, -, hr, -, -⟩
      · exact ⟨tail, by rw [htail, hm], hrate⟩
      · refine ⟨m :: tail, ?_, ?_⟩
        · rw [htail, hm, List.append_assoc]
          rfl
        · intro m' hm'
          rcases List.mem_cons.mp hm' with rfl | hm'
          · rw [hr, hcr]
          · exact hrate m' hm'

/-- C8 — confirmed: the loop nest visits the `(tier, N)` combinations in
exactly the order pro then casual then unrated, sizes 6 down to 2 within each
tier, and consequently every pro match in the output precedes every casual
match, which precedes every unrated match. -/
theorem generate_matches_priority_order (ok : Match → Bool) (g : Nat → Nat)
    (seeks : List Seek) (ms : List Match)
    (h : generate_matches ok g seeks = .ok ms) :
    combos = [("pro", 6), ("pro", 5), ("pro", 4), ("pro", 3), ("pro", 2),
      ("casual", 6), ("casual", 5), ("casual", 4), ("casual", 3),
      ("casual", 2), ("unrated", 6), ("unrated", 5), ("unrated", 4),
      ("unrated", 3), ("unrated", 2)] ∧
    ms.Pairwise (fun a b =>
      tierRank a.rating_system ≤ tierRank b.rating_system) := by
  refine ⟨by rfl, ?_⟩
  obtain ⟨stF, hf, hms⟩ := generate_matches_ok_inv ok g seeks ms h
  have hsplit : combos =
      (sizes.map fun n => ("pro", n)) ++
        ((sizes.map fun n => ("casual", n)) ++
          (sizes.map fun n => ("unrated", n))) := by rfl
  rw [hsplit, List.foldlM_append] at hf
  cases h1 : (sizes.map fun n => ("pro", n)).foldlM
      (fun st c => runCombo ok g c.1 c.2 st)
      { ctr := 0, pool := seeks, outMatches := [] } with
  | error e => rw [h1] at hf; simp at hf
  | ok st1 =>
    rw [h1] at hf
    simp only [except_bind_ok] at hf
    rw [List.foldlM_append] at hf
    cases h2 : (sizes.map fun n => ("casual", n)).foldlM
        (fun st c => runCombo ok g c.1 c.2 st) st1 with
    | error e => rw [h2] at hf; simp at hf
    | ok st2 =>
      rw [h2] at hf
      simp only [except_bind_ok] at hf
      obtain ⟨tp, htp, hrp⟩ := foldBlock_rating ok g "pro" _ (by decide)
        _ _ h1
      obtain ⟨tc, htc, hrc⟩ := foldBlock_rating ok g "casual" _ (by decide)
        _ _ h2
      obtain ⟨tu, htu, hru⟩ := foldBlock_rating ok g "unrated" _ (by decide)
        _ _ hf
      rw [hms, htu, htc, htp]
      simp only [List.nil_append]
      rw [List.append_assoc]
      rw [List.pairwise_append]
      refine ⟨?_, ?_, ?_⟩
      · refine List.pairwise_of_forall_mem_list ?_
        intro a ha b hb
        rw [hrp a ha, hrp b hb]
      · rw [List.pairwise_append]
        refine ⟨?_, ?_, ?_⟩
        · refine List.pairwise_of_forall_mem_list ?_
          intro a ha b hb
          rw [hrc a ha, hrc b hb]
        · refine List.pairwise_of_forall_mem_list ?_
          intro a ha b hb
          rw [hru a ha, hru b hb]
        · intro a ha b hb
          rw [hrc a ha, hru b hb]
          exact Nat.le_succ 1
      · intro a ha b hb
        rcases List.mem_append.mp hb with hb | hb
        · rw [hrp a ha, hrc b hb]
          exact Nat.zero_le 1
        · rw [hrp a ha, hru b hb]
          exact Nat.zero_le 2

/-- Witness for C8: the ordering facts instantiated at the concrete 6-seek
casual scenario. -/
theorem generate_matches_priority_order_witness :
    combos = [("pro", 6), ("pro", 5), ("pro", 4), ("pro", 3), ("pro", 2),
      ("casual", 6), ("casual", 5), ("casual", 4), ("casual", 3),
      ("casual", 2), ("unrated", 6), ("unrated", 5), ("unrated", 4),
      ("unrated", 3), ("unrated", 2)] ∧
    [c2Expected].Pairwise (fun a b =>
      tierRank a.rating_system ≤ tierRank b.rating_system) :=
  generate_matches_priority_order okTrue g0 sixSeeks [c2Expected] (by rfl)

/-- One step of the VP-counter fold equals consulting `vpPref` and keeping
the accumulator on `none`. -/
theorem vpStep_eq (acc : Option Bool) (r : Requirement) :
    (match r with
      | Requirement.vpCounter (some v) => some v
      | _ => acc) = (vpPref r).or acc := by
  cases r with
  | vpCounter v =>
    cases v with
    | none => rfl
    | some b => rfl
  | numPlayers lo hi => rfl
  | ratingSystem t => rfl

/-- The inner requirement fold computes the last non-unset preference of one
requirement list, falling back to the accumulator. -/
theorem vpFoldReqs_eq (l : List Requirement) :
    ∀ (init : Option Bool),
      l.foldl
        (fun acc r =>
          match r with
          | Requirement.vpCounter (some v) => some v
          | _ => acc)
        init = (l.filterMap vpPref).getLast?.or init := by
  induction l with
  | nil =>
    intro init
    simp [Option.or]
  | cons r l ih =>
    intro init
    rw [List.foldl_cons, vpStep_eq, ih, List.filterMap_cons]
    cases hv : vpPref r with
    | none => simp [Option.or]
    | some v =>
      have hcons : ∀ (t : List Bool),
          (v :: t).getLast? = t.getLast?.or (some v) := by
        intro t
        rw [List.getLast?_cons]
        cases ht : t.getLast? with
        | none => rfl
        | some w => rfl
      rw [hcons, Option.or_assoc]

/-- The score-display reconciliation of the source computes exactly the
spec's characterization: the last non-unset preference in iteration order. -/
theorem reconcileVP_eq_spec (seeks : List Seek) :
    reconcileVP seeks = reconcileVPSpec seeks := by
  suffices hgen : ∀ (ss : List Seek) (init : Option Bool),
      ss.foldl
        (fun acc s =>
          s.requirements.foldl
            (fun acc r =>
              match r with
              | Requirement.vpCounter (some v) => some v
              | _ => acc)
            acc)
        init =
      ((ss.flatMap fun s => s.requirements).filterMap vpPref).getLast?.or
        init by
    rw [reconcileVP, reconcileVPSpec, hgen seeks none, Option.or_none]
  intro ss
  induction ss with
  | nil =>
    intro init
    simp [Option.or]
  | cons s ss ih =>
    intro init
    rw [List.foldl_cons, ih, vpFoldReqs_eq]
    rw [List.flatMap_cons, List.filterMap_append, List.getLast?_append,
      Option.or_assoc]

/-- C9 — confirmed: every match emitted by a successful `generate_matches`
run carries as its score-display setting the last non-unset
`ScoreDisplayPreference` value encountered while scanning all requirements of
all its member seeks in iteration order (with no conflict detection). -/
theorem generate_matches_vp_last_write (ok : Match → Bool) (g : Nat → Nat)
    (seeks : List Seek) (ms : List Match)
    (h : generate_matches ok g seeks = .ok ms) :
    ∀ m ∈ ms, m.vpcounter = reconcileVPSpec m.seeks := by
  obtain ⟨stF, hf, hms⟩ := generate_matches_ok_inv ok g seeks ms h
  have hInv : ∀ m ∈ stF.outMatches, m.vpcounter = reconcileVPSpec m.seeks := by
    refine foldCombos_inv ok g
      (fun st => ∀ m ∈ st.outMatches, m.vpcounter = reconcileVPSpec m.seeks)
      ?_ combos (fun c hc => hc) _ _ hf (by simp)
    intro r n st st' hc hrun hP
    rcases runCombo_spec ok g r n (combos_size_pos _ hc) st st' hrun with
      ⟨-, hm⟩ | ⟨m, players, hm, -, -, hseeks, -, -, hvp⟩
    · rw [hm]
      exact hP
    · rw [hm]
      intro m' hm'
      rcases List.mem_append.mp hm' with hm' | hm'
      · exact hP m' hm'
      · rcases List.mem_singleton.mp hm' with rfl
        rw [hvp, hseeks, reconcileVP_eq_spec]
  rw [hms]
  exact hInv

/-- Witness for C9: the last-write characterization instantiated at the
concrete run in which one seek carries ScoreDisplayPreference `on` and the
other is unset; the emitted match's setting is `on`. -/
theorem generate_matches_vp_last_write_witness :
    vpExpected.vpcounter = reconcileVPSpec vpExpected.seeks :=
  generate_matches_vp_last_write okTrue g0 [vpSeekOn, casual22 "b"]
    [vpExpected] (by rfl) vpExpected (List.mem_singleton.mpr rfl)

end Isotropic
